import Mathlib

/-!
Verification development for the `rtmk_sync.py` incremental CSV mirroring
script.  The script lists timestamped CSV files on a remote server, filters
them by a filename-derived date, merges each new file's data rows into a
month-partitioned local CSV, and tracks already-ingested names in a JSON
ledger.

This file gives a shallow embedding of the script's pure core:

* `extract_datetime_from_fname`, `file_in_scope`, `year_month_for` — the
  filename scope parser (including a faithful model of CPython
  `strptime` greedy-regex behavior on the two recognized layouts);
* `load_state` / `save_state` — the ledger, with the on-disk file modeled
  as an inductive `LedgerFile` (absent / unreadable / non-list JSON /
  JSON list of names);
* `append_raw_to_monthly` — the monthly aggregator at the parsed-row
  level (CSV byte-level encoding is outside the model);
* `clear_target_month_files_if_rebuild` and `main` — the orchestrator,
  with the filesystem as a map from partition key to optional row list,
  remote fetch as a function `String → Option Rows` (`none` models a
  per-file exception raised while downloading or merging, before any
  write to the partition), and a variant `mainInterrupted` that stops the
  per-file loop after `k` files, modeling a KeyboardInterrupt.

Characters are compared by code point, as Python does; digits are modeled
as ASCII digits.
-/

namespace RtmkSync

/-- Calendar timestamp as validated and returned by `datetime.strptime`. -/
structure PyDateTime where
  year : Nat
  month : Nat
  day : Nat
  hour : Nat
  minute : Nat
  second : Nat
deriving DecidableEq, Repr

/-- Gregorian leap-year rule used by `datetime`. -/
def isLeap (y : Nat) : Bool := y % 4 = 0 && (y % 100 != 0 || y % 400 = 0)

/-- Number of days in a month, per the `datetime` constructor's validation. -/
def daysInMonth (y m : Nat) : Nat :=
  if m = 2 then (if isLeap y then 29 else 28)
  else if m = 4 ∨ m = 6 ∨ m = 9 ∨ m = 11 then 30
  else 31

/-- Range validation performed by the `datetime` constructor (years 1–9999,
months 1–12, days 1–`daysInMonth`, hour/minute/second in range).  A failed
check raises `ValueError` in Python, which the script turns into `None`. -/
def validDateTime (d : PyDateTime) : Bool :=
  decide (1 ≤ d.year) && decide (d.year ≤ 9999) &&
  decide (1 ≤ d.month) && decide (d.month ≤ 12) &&
  decide (1 ≤ d.day) && decide (d.day ≤ daysInMonth d.year d.month) &&
  decide (d.hour ≤ 23) && decide (d.minute ≤ 59) && decide (d.second ≤ 59)

/-- Numeric value of an ASCII digit character. -/
def digitVal (c : Char) : Nat := c.toNat - 48

/-- Value of a digit string, most significant digit first. -/
def valDigits (cs : List Char) : Nat := cs.foldl (fun a c => 10 * a + digitVal c) 0

/-- Shared tail of every successful `strptime` path: the extracted fields
go through the `datetime` constructor's range validation; a failure
raises `ValueError`, which the caller turns into a parse failure. -/
def mkValid (d : PyDateTime) : Option PyDateTime :=
  if validDateTime d then some d else none

/-- `datetime.strptime(s, "%Y%m%dT%H%M%S")` applied to a 15-character
string.  The CPython regex is fixed-width here: a successful full match
forces 4+2+2 digits, the literal `T`, then 2+2+2 digits; any other
backtracked match ends before the end of the string and raises
("unconverted data remains"), which the script treats the same as a parse
failure. -/
def strptimeT15 : List Char → Option PyDateTime
  | [y1, y2, y3, y4, m1, m2, d1, d2, t, h1, h2, i1, i2, s1, s2] =>
    if t = 'T' && ([y1, y2, y3, y4, m1, m2, d1, d2, h1, h2, i1, i2, s1, s2].all Char.isDigit) then
      mkValid ⟨valDigits [y1, y2, y3, y4], valDigits [m1, m2], valDigits [d1, d2],
        valDigits [h1, h2], valDigits [i1, i2], valDigits [s1, s2]⟩
    else none
  | _ => none

/-- Group sizes chosen by CPython's greedy `\d{1,2}` matching for the five
fields after the year: on an all-digit string the earliest groups take two
digits while the remaining groups can still be fed, so the first `tw`
groups get two digits and the rest one. -/
def groupVals : Nat → Nat → List Char → List Nat
  | 0, _, _ => []
  | n + 1, tw, cs =>
    if 0 < tw then valDigits (cs.take 2) :: groupVals n (tw - 1) (cs.drop 2)
    else valDigits (cs.take 1) :: groupVals n 0 (cs.drop 1)

/-- `datetime.strptime(s, "%Y%m%d%H%M%S")` on an all-digit string of
length 9–13: the regex `\d{4}(\d{1,2}){5}` matches greedily, assigning two
digits to the earliest groups, and consumes the whole string; shorter
strings do not match at all. -/
def strptimeShort (s : List Char) : Option PyDateTime :=
  if 9 ≤ s.length && s.length ≤ 13 then
    match groupVals 5 (s.length - 9) (s.drop 4) with
    | [mo, dy, hh, mi, ss] => mkValid ⟨valDigits (s.take 4), mo, dy, hh, mi, ss⟩
    | _ => none
  else none

/-- `datetime.strptime(s, "%Y%m%d%H%M%S")` on an all-digit string of at
most 14 characters (the script always passes `tail[:14]` after an
`isdigit()` check).  Fourteen digits split fixed-width; fewer fall back to
the greedy-match model. -/
def strptime14 : List Char → Option PyDateTime
  | [y1, y2, y3, y4, m1, m2, d1, d2, h1, h2, i1, i2, s1, s2] =>
    mkValid ⟨valDigits [y1, y2, y3, y4], valDigits [m1, m2], valDigits [d1, d2],
      valDigits [h1, h2], valDigits [i1, i2], valDigits [s1, s2]⟩
  | s => strptimeShort s

/-- Split a character list at its last `'.'`, returning the parts before
and after it, or `none` when no dot occurs. -/
def splitLastDot : List Char → Option (List Char × List Char)
  | [] => none
  | c :: t =>
    match splitLastDot t with
    | some (p, q) => some (c :: p, q)
    | none => if c = '.' then some ([], t) else none

/-- `os.path.splitext(s)[0]` for a name without path separators: the
extension starts at the last dot, unless every character before that dot
is itself a dot (then nothing is stripped). -/
def splitextBase (s : List Char) : List Char :=
  match splitLastDot s with
  | some (p, _) => if p.any (fun c => c ≠ '.') then p else s
  | none => s

/-- Python `s.split("_")`: split on every underscore, keeping empty
segments; the result is never empty. -/
def splitUnders : List Char → List (List Char)
  | [] => [[]]
  | c :: t =>
    match splitUnders t with
    | [] => [[]]
    | h :: r => if c = '_' then [] :: h :: r else (c :: h) :: r

/-- First branch of `extract_datetime_from_fname`: when the tail is at
least 15 characters long and its character at index 8 is `'T'`, try
`strptime` with format `%Y%m%dT%H%M%S` on the first 15 characters. -/
def tryTLayout (tail : List Char) : Option PyDateTime :=
  if 15 ≤ tail.length && tail[8]? == some 'T' then strptimeT15 (tail.take 15) else none

/-- Second branch: when `tail[:14]` is non-empty and all digits
(`str.isdigit`), try `strptime` with format `%Y%m%d%H%M%S` on it. -/
def tryDigitLayout (tail : List Char) : Option PyDateTime :=
  let t14 := tail.take 14
  if !t14.isEmpty && t14.all Char.isDigit then strptime14 t14 else none

/-- Core of `extract_datetime_from_fname`, on the character list of the
name: strip the extension, split the base on underscores, require at
least two segments, and try the two timestamp layouts on the second
segment. -/
def extractDT (fname : List Char) : Option PyDateTime :=
  match splitUnders (splitextBase fname) with
  | _ :: tail :: _ =>
    match tryTLayout tail with
    | some d => some d
    | none => tryDigitLayout tail
  | _ => none

/-- `extract_datetime_from_fname`: derive the timestamp embedded in a
remote object name, or `none` when it is undecidable. -/
def extract_datetime_from_fname (fname : String) : Option PyDateTime := extractDT fname.data

/-- Calendar date, as compared by Python `datetime.date`. -/
structure PyDate where
  year : Nat
  month : Nat
  day : Nat
deriving DecidableEq, Repr

/-- Python `date.__le__`: lexicographic comparison of (year, month, day). -/
def dateLe (a b : PyDate) : Bool :=
  decide (a.year < b.year) ||
    (decide (a.year = b.year) &&
      (decide (a.month < b.month) ||
        (decide (a.month = b.month) && decide (a.day ≤ b.day))))

/-- The calendar date of a timestamp (`datetime.date()`). -/
def PyDateTime.dateOf (d : PyDateTime) : PyDate := ⟨d.year, d.month, d.day⟩

/-- `file_in_scope`: true iff the name's timestamp is decidable and its
date is at or after the configured scope bound (`START_DATE`), which is
passed explicitly here. -/
def file_in_scope (startDate : PyDate) (fname : String) : Bool :=
  match extract_datetime_from_fname fname with
  | none => false
  | some d => dateLe startDate d.dateOf

/-- Partition key: the pair rendered by the script as `f"{year}-{month:02d}"`.
Distinct pairs render to distinct strings, so the pair itself is the key. -/
abbrev Ym := Nat × Nat

/-- `year_month_for`: the partition key of a name — its embedded
timestamp's year and month, or the current wall-clock month (`nowYm`,
passed explicitly) when the timestamp is undecidable. -/
def year_month_for (nowYm : Ym) (fname : String) : Ym :=
  match extract_datetime_from_fname fname with
  | none => nowYm
  | some d => (d.year, d.month)

/-- ASCII digit character of a value's last decimal digit. -/
def digitChar (d : Nat) : Char := Char.ofNat (48 + d % 10)

/-- Two-digit zero-padded rendering of a number below 100. -/
def pad2 (n : Nat) : List Char := [digitChar (n / 10), digitChar (n % 10)]

/-- Four-digit zero-padded rendering of a number below 10000. -/
def pad4 (n : Nat) : List Char :=
  [digitChar (n / 1000), digitChar (n / 100 % 10), digitChar (n / 10 % 10), digitChar (n % 10)]

/-- The `YYYYMMDDThhmmss` spelling of a timestamp. -/
def encodeT (d : PyDateTime) : List Char :=
  pad4 d.year ++ pad2 d.month ++ pad2 d.day ++ 'T' :: (pad2 d.hour ++ pad2 d.minute ++ pad2 d.second)

/-- The `YYYYMMDDhhmmss` spelling of a timestamp. -/
def encode14 (d : PyDateTime) : List Char :=
  pad4 d.year ++ pad2 d.month ++ pad2 d.day ++ pad2 d.hour ++ pad2 d.minute ++ pad2 d.second

/-- Python string `<`: lexicographic comparison of code points, with a
proper prerun of one string making it the smaller one. -/
def ltb : List Char → List Char → Bool
  | _, [] => false
  | [], _ :: _ => true
  | a :: s, b :: t => if a < b then true else if a = b then ltb s t else false

/-- `strLt a b`: Python `a < b` on strings. -/
def strLt (a b : String) : Bool := ltb a.data b.data

/-- Insertion into a strictly sorted list, skipping an element already
present.  Folding this over a list computes Python's `sorted(set(l))`:
the strictly increasing enumeration of the distinct elements. -/
def dedupInsert (a : String) : List String → List String
  | [] => [a]
  | b :: t => if strLt a b then a :: b :: t else if a = b then b :: t else b :: dedupInsert a t

/-- Python `sorted(set(l))` for strings. -/
def sortDedup (l : List String) : List String := l.foldr dedupInsert []

/-- Plain insertion into a sorted list, keeping duplicates. -/
def sortInsert (a : String) : List String → List String
  | [] => [a]
  | b :: t => if strLt a b then a :: b :: t else b :: sortInsert a t

/-- Python `sorted(l)` for strings (duplicates kept; equal strings are
indistinguishable, so stability is invisible at the value level). -/
def pySorted (l : List String) : List String := l.foldr sortInsert []

/-- The persisted ledger file (`state/downloaded_files.json`) as the
script can observe it: absent, unreadable or malformed, valid JSON that
is not a list, or a JSON list of names. -/
inductive LedgerFile where
  | absent
  | unreadable
  | jsonNonList
  | jsonList (names : List String)
deriving DecidableEq, Repr

/-- `load_state`: return the stored list of names; an absent, unreadable,
malformed, or non-list file yields the empty list, and no case raises. -/
def load_state : LedgerFile → List String
  | .absent => []
  | .unreadable => []
  | .jsonNonList => []
  | .jsonList names => names

/-- `save_state`: overwrite the ledger file with `json.dump(sorted(set(files)))`.
The serialization of a list of strings is canonical, so equal lists mean
equal file content. -/
def save_state (files : List String) : LedgerFile := .jsonList (sortDedup files)

/-- Parsed content of a CSV file: `list(csv.reader(...))`. -/
abbrev Rows := List (List String)

/-- `append_raw_to_monthly`, at the parsed-row level.  Takes the rows of
the raw source file and the current content of the destination partition
(`none` when the file does not exist) and returns the new content plus
the number of data rows appended.  An empty source returns before the
destination is even opened; otherwise append-mode open creates the file,
the header is written only when the file did not exist, and only
non-empty data rows are appended. -/
def append_raw_to_monthly (rows : Rows) (dest : Option Rows) : Option Rows × Nat :=
  match rows with
  | [] => (dest, 0)
  | header :: rest =>
    let dataRows := rest.filter (fun r => !r.isEmpty)
    match dest with
    | none => (some (header :: dataRows), dataRows.length)
    | some old => (some (old ++ dataRows), dataRows.length)

/-- Number of data rows `append_raw_to_monthly` reports for a source. -/
def addedCount (rows : Rows) : Nat :=
  match rows with
  | [] => 0
  | _ :: rest => (rest.filter (fun r => !r.isEmpty)).length

/-- The local data directory: partition key to optional file content. -/
abbrev DataDir := Ym → Option Rows

/-- `clear_target_month_files_if_rebuild`: when rebuild mode is on,
delete the monthly file of every partition key derived from the in-scope
names; otherwise leave the data directory alone. -/
def clear_target_month_files_if_rebuild (rebuild : Bool) (nowYm : Ym)
    (scope_files : List String) (data : DataDir) : DataDir :=
  if rebuild then
    fun ym => if ym ∈ scope_files.map (year_month_for nowYm) then none else data ym
  else data

/-- Case-insensitive ASCII lowering of one character. -/
def lowerAscii (c : Char) : Char :=
  if 'A' ≤ c && c ≤ 'Z' then Char.ofNat (c.toNat + 32) else c

/-- `n.lower().endswith(".csv")`, the filter applied by `list_remote_csv`. -/
def isCsvName (s : String) : Bool :=
  List.isSuffixOf ".csv".data (s.data.map lowerAscii)

/-- `list_remote_csv`: keep the listed names ending in `.csv`
case-insensitively. -/
def list_remote_csv (names : List String) : List String := names.filter isCsvName

/-- The run's environment: the remote listing, the fetch-and-parse
capability (`none` models an exception raised for that one file while
downloading, decoding, or parsing it, before anything is written to its
partition), the configured scope bound, the rebuild flag, and the
wall-clock month used as partition-key fallback. -/
structure Env where
  remote : List String
  fetch : String → Option Rows
  startDate : PyDate
  rebuild : Bool
  nowYm : Ym

/-- The local filesystem state the run reads and writes: the ledger file
and the data directory. -/
structure FS where
  ledger : LedgerFile
  data : DataDir

/-- In-memory state of the per-file loop in `main`. -/
structure LoopState where
  dataMap : DataDir
  stateSet : List String
  ok : Nat
  skipped : Nat
  log : List (String × Ym × Nat)

/-- One iteration of the per-file loop: compute the partition key, fetch
and merge; on success record the file in the in-memory ledger, bump `ok`
and log the append; on a per-file exception bump `skipped` and continue. -/
def processOne (env : Env) (st : LoopState) (f : String) : LoopState :=
  let ym := year_month_for env.nowYm f
  match env.fetch f with
  | some rows =>
    let res := append_raw_to_monthly rows (st.dataMap ym)
    { st with
      dataMap := fun k => if k = ym then res.1 else st.dataMap k
      stateSet := f :: st.stateSet
      ok := st.ok + 1
      log := st.log ++ [(f, ym, res.2)] }
  | none => { st with skipped := st.skipped + 1 }

/-- The whole per-file loop. -/
def processAll (env : Env) (st : LoopState) (files : List String) : LoopState :=
  files.foldl (processOne env) st

/-- `sorted(list_remote_csv(ftp))` filtered by `file_in_scope`. -/
def scopeOf (env : Env) : List String :=
  (pySorted (list_remote_csv env.remote)).filter (file_in_scope env.startDate)

/-- `new_files`: the in-scope names not present in the loaded ledger. -/
def newFilesOf (env : Env) (fs : FS) : List String :=
  (scopeOf env).filter (fun f => !(load_state fs.ledger).contains f)

/-- Outcome of one completed run of `main`. -/
structure RunResult where
  fs : FS
  ok : Nat
  skipped : Nat
  log : List (String × Ym × Nat)

/-- `main`, after a successful connection: load the ledger, list and sort
the remote names, filter to scope (empty scope returns with nothing
done), clear target months when rebuilding, diff against the ledger
(empty diff returns without saving), run the per-file loop, and persist
the updated ledger exactly once.  `log` records every successful merge
with its partition key and appended-row count. -/
def main (env : Env) (fs : FS) : RunResult :=
  let state := load_state fs.ledger
  let scope := scopeOf env
  if scope.isEmpty then ⟨fs, 0, 0, []⟩
  else
    let data1 := clear_target_month_files_if_rebuild env.rebuild env.nowYm scope fs.data
    let newFiles := scope.filter (fun f => !state.contains f)
    if newFiles.isEmpty then ⟨⟨fs.ledger, data1⟩, 0, 0, []⟩
    else
      let st := processAll env ⟨data1, state, 0, 0, []⟩ newFiles
      ⟨⟨save_state st.stateSet, st.dataMap⟩, st.ok, st.skipped, st.log⟩

/-- `main` when a KeyboardInterrupt stops the per-file loop after `k`
files: the exception is caught at top level (the run ends without
propagating it), so `save_state` is never reached and the ledger file
keeps its pre-run content; only the partitions of the first `k` processed
files have been touched. -/
def mainInterrupted (env : Env) (fs : FS) (k : Nat) : RunResult :=
  let state := load_state fs.ledger
  let scope := scopeOf env
  if scope.isEmpty then ⟨fs, 0, 0, []⟩
  else
    let data1 := clear_target_month_files_if_rebuild env.rebuild env.nowYm scope fs.data
    let newFiles := scope.filter (fun f => !state.contains f)
    if newFiles.isEmpty then ⟨⟨fs.ledger, data1⟩, 0, 0, []⟩
    else
      let st := processAll env ⟨data1, state, 0, 0, []⟩ (newFiles.take k)
      ⟨⟨fs.ledger, st.dataMap⟩, st.ok, st.skipped, st.log⟩

/-- The data rows of a parsed source file: everything after the header,
with empty rows dropped. -/
def dataRowsOf (rows : Rows) : Rows :=
  match rows with
  | [] => []
  | _ :: rest => rest.filter (fun r => !r.isEmpty)

/-- Strictly-increasing (hence duplicate-free) list of strings, the shape
of Python's `sorted(set(l))`. -/
def StrictSorted (l : List String) : Prop := List.Pairwise (fun a b => strLt a b = true) l

/-- Fixture: an empty local filesystem (no ledger file, no data files). -/
def fsEmpty : FS := ⟨.absent, fun _ => none⟩

/-- Fixture: parsed rows of a small source file — a header and one data row. -/
def wRows : Rows := [["time", "v"], ["2025", "1"]]

/-- Fixture environment: two in-scope remote files, the first fetchable,
the second failing, rebuild off. -/
def wEnvA : Env :=
  { remote := ["B_20251219T170000.CSV", "A_20251105T080000.CSV"]
    fetch := fun f => if f = "A_20251105T080000.CSV" then some wRows else none
    startDate := ⟨2025, 1, 1⟩
    rebuild := false
    nowYm := (2025, 1) }

/-- Fixture environment: like `wEnvA` but with rebuild mode on. -/
def wEnvR : Env := { wEnvA with rebuild := true }

/-- Fixture: a ledger already containing the first remote file. -/
def fsLedgerA : FS := ⟨.jsonList ["A_20251105T080000.CSV"], fun _ => none⟩

/-- Fixture: a data directory holding one monthly file outside the scope
months of `wEnvA`/`wEnvR`. -/
def fsOldMonth : FS := ⟨.absent, fun ym => if ym = (2024, 5) then some [["h"]] else none⟩

example : extract_datetime_from_fname "235_20251219T170000.CSV" = some ⟨2025, 12, 19, 17, 0, 0⟩ := by
  decide

example : extract_datetime_from_fname "D000_20250616115008.CSV" = some ⟨2025, 6, 16, 11, 50, 8⟩ := by
  decide

example : extract_datetime_from_fname "nounderscore.CSV" = none := by decide

example : extract_datetime_from_fname "X_202512191234.CSV" = some ⟨2025, 12, 19, 12, 3, 4⟩ := by
  decide

theorem ltb_irrefl (l : List Char) : ltb l l = false := by
  induction l with
  | nil => rfl
  | cons a t ih => simp [ltb, ih]

theorem ltb_trans (a : List Char) : ∀ b c, ltb a b = true → ltb b c = true → ltb a c = true := by
  induction a with
  | nil =>
    intro b c h1 h2
    cases b with
    | nil => simp [ltb] at h1
    | cons y yt =>
      cases c with
      | nil => simp [ltb] at h2
      | cons z zt => rfl
  | cons x xt ih =>
    intro b c h1 h2
    cases b with
    | nil => simp [ltb] at h1
    | cons y yt =>
      cases c with
      | nil => simp [ltb] at h2
      | cons z zt =>
        simp only [ltb] at h1 h2 ⊢
        by_cases hxy : x < y
        · by_cases hyz : y < z
          · simp [lt_trans hxy hyz]
          · rw [if_neg hyz] at h2
            by_cases hyz' : y = z
            · subst hyz'
              simp [hxy]
            · rw [if_neg hyz'] at h2
              exact absurd h2 (by simp)
        · rw [if_neg hxy] at h1
          by_cases hxy' : x = y
          · subst hxy'
            rw [if_pos rfl] at h1
            by_cases hxz : x < z
            · simp [hxz]
            · rw [if_neg hxz] at h2
              by_cases hxz' : x = z
              · subst hxz'
                rw [if_pos rfl] at h2
                simp [hxz, ih yt zt h1 h2]
              · rw [if_neg hxz'] at h2
                exact absurd h2 (by simp)
          · rw [if_neg hxy'] at h1
            exact absurd h1 (by simp)

theorem ltb_connex (a : List Char) : ∀ b, ltb a b = false → ltb b a = false → a = b := by
  induction a with
  | nil =>
    intro b h1 _
    cases b with
    | nil => rfl
    | cons y yt => simp [ltb] at h1
  | cons x xt ih =>
    intro b h1 h2
    cases b with
    | nil => simp [ltb] at h2
    | cons y yt =>
      simp only [ltb] at h1 h2
      by_cases hxy : x < y
      · simp [hxy] at h1
      · rw [if_neg hxy] at h1
        by_cases hyx : y < x
        · simp [hyx] at h2
        · rw [if_neg hyx] at h2
          have hxy' : x = y := le_antisymm (not_lt.mp hyx) (not_lt.mp hxy)
          subst hxy'
          rw [if_pos rfl] at h1 h2
          rw [ih yt h1 h2]

theorem strLt_irrefl (a : String) : strLt a a = false := ltb_irrefl a.data

theorem strLt_trans {a b c : String} (h1 : strLt a b = true) (h2 : strLt b c = true) :
    strLt a c = true := ltb_trans a.data b.data c.data h1 h2

theorem strLt_connex {a b : String} (h1 : strLt a b = false) (h2 : strLt b a = false) : a = b := by
  have h3 := ltb_connex a.data b.data h1 h2
  cases a
  cases b
  cases h3
  rfl

theorem strLt_asymm {a b : String} (h : strLt a b = true) : strLt b a = false := by
  cases hba : strLt b a
  · rfl
  · exact absurd (strLt_trans h hba) (by simp [strLt_irrefl])

theorem mem_dedupInsert (a x : String) (l : List String) :
    x ∈ dedupInsert a l ↔ x = a ∨ x ∈ l := by
  induction l with
  | nil => simp [dedupInsert]
  | cons b t ih =>
    simp only [dedupInsert]
    split_ifs with h1 h2
    · simp [List.mem_cons]
    · subst h2
      simp [List.mem_cons]
    · simp [List.mem_cons, ih]
      tauto

theorem sorted_dedupInsert (a : String) (l : List String) (h : StrictSorted l) :
    StrictSorted (dedupInsert a l) := by
  induction l with
  | nil => simp [dedupInsert, StrictSorted]
  | cons b t ih =>
    rw [StrictSorted, List.pairwise_cons] at h
    obtain ⟨hb, ht⟩ := h
    simp only [dedupInsert]
    split_ifs with h1 h2
    · rw [StrictSorted, List.pairwise_cons]
      refine ⟨?_, List.pairwise_cons.mpr ⟨hb, ht⟩⟩
      intro y hy
      rcases List.mem_cons.mp hy with rfl | hy'
      · exact h1
      · exact strLt_trans h1 (hb y hy')
    · exact List.pairwise_cons.mpr ⟨hb, ht⟩
    · rw [StrictSorted, List.pairwise_cons]
      refine ⟨?_, ih ht⟩
      intro y hy
      rcases (mem_dedupInsert a y t).mp hy with rfl | hy'
      · have h1' : strLt y b = false := by simpa using h1
        cases hba : strLt b y
        · exact absurd (strLt_connex h1' hba) h2
        · rfl
      · exact hb y hy'

theorem sortDedup_cons (a : String) (t : List String) :
    sortDedup (a :: t) = dedupInsert a (sortDedup t) := rfl

theorem sortDedup_sorted (l : List String) : StrictSorted (sortDedup l) := by
  induction l with
  | nil => simp [sortDedup, StrictSorted]
  | cons a t ih =>
    rw [sortDedup_cons]
    exact sorted_dedupInsert a _ ih

theorem mem_sortDedup (x : String) (l : List String) : x ∈ sortDedup l ↔ x ∈ l := by
  induction l with
  | nil => simp [sortDedup]
  | cons a t ih =>
    rw [sortDedup_cons]
    simp [mem_dedupInsert, ih]

theorem dedupInsert_of_mem (a : String) (l : List String) (hs : StrictSorted l) (hm : a ∈ l) :
    dedupInsert a l = l := by
  induction l with
  | nil => cases hm
  | cons b t ih =>
    rw [StrictSorted, List.pairwise_cons] at hs
    obtain ⟨hb, ht⟩ := hs
    simp only [dedupInsert]
    rcases List.mem_cons.mp hm with rfl | hmt
    · simp [strLt_irrefl]
    · have hba : strLt b a = true := hb a hmt
      have h1 : strLt a b = false := strLt_asymm hba
      have h2 : a ≠ b := by
        rintro rfl
        simp [strLt_irrefl] at hba
      rw [if_neg (by simp [h1]), if_neg h2, ih ht hmt]

theorem sortDedup_of_sorted (l : List String) (h : StrictSorted l) : sortDedup l = l := by
  induction l with
  | nil => rfl
  | cons a t ih =>
    rw [StrictSorted, List.pairwise_cons] at h
    obtain ⟨ha, ht⟩ := h
    rw [sortDedup_cons, ih ht]
    cases t with
    | nil => rfl
    | cons b u =>
      have hab : strLt a b = true := ha b (by simp)
      simp [dedupInsert, hab]

theorem sortDedup_idem (l : List String) : sortDedup (sortDedup l) = sortDedup l :=
  sortDedup_of_sorted _ (sortDedup_sorted l)

theorem dateLe_trans {a b c : PyDate} (h1 : dateLe a b = true) (h2 : dateLe b c = true) :
    dateLe a c = true := by
  unfold dateLe at h1 h2 ⊢
  simp only [Bool.or_eq_true, Bool.and_eq_true, decide_eq_true_eq] at h1 h2 ⊢
  omega

theorem append_raw_snd (rows : Rows) (dest : Option Rows) :
    (append_raw_to_monthly rows dest).2 = addedCount rows := by
  cases rows <;> cases dest <;> rfl

/-- C5: `save_state` writes the sorted, deduplicated sequence of its
input — a strictly increasing list with exactly the input's members —
and saving is a fixed point of every further load-then-save cycle: after
the first save, iterating `save_state ∘ load_state` any number of times
leaves the persisted file's content unchanged. -/
theorem C5_save_state_roundtrip_fixed (x : List String) :
    save_state x = .jsonList (sortDedup x) ∧
    StrictSorted (sortDedup x) ∧
    (∀ a, a ∈ sortDedup x ↔ a ∈ x) ∧
    (∀ n, (fun v => save_state (load_state v))^[n] (save_state x) = save_state x) := by
  refine ⟨rfl, sortDedup_sorted x, fun a => mem_sortDedup a x, ?_⟩
  intro n
  induction n with
  | zero => rfl
  | succ n ih =>
    rw [Function.iterate_succ_apply', ih]
    show save_state (sortDedup x) = save_state x
    unfold save_state
    rw [sortDedup_idem]

/-- C8: `load_state` is total — it returns the empty list when the
ledger file is absent, unreadable or malformed, or holds JSON that is
not a list, and returns the stored sequence of names otherwise.  In the
source every failure mode is caught and mapped to `[]`; totality of this
Lean function models that no case raises. -/
theorem C8_load_state_total :
    load_state .absent = [] ∧
    load_state .unreadable = [] ∧
    load_state .jsonNonList = [] ∧
    (∀ names, load_state (.jsonList names) = names) :=
  ⟨rfl, rfl, rfl, fun _ => rfl⟩

/-- C3: `append_raw_to_monthly` returns the number of non-empty data
rows it appended; merging a source with a header and data rows `d1` into
a nonexistent partition file, then a second source with the same header
and data rows `d2` into the same partition, yields exactly one header
row followed by `d1 ++ d2` in merge order, with counts `d1.length` and
`d2.length`. -/
theorem C3_monthly_merge (header : List String) (d1 d2 : Rows)
    (h1 : ∀ r ∈ d1, r ≠ []) (h2 : ∀ r ∈ d2, r ≠ []) :
    (∀ (rows : Rows) (dest : Option Rows),
      (append_raw_to_monthly rows dest).2 = addedCount rows) ∧
    append_raw_to_monthly (header :: d1) none = (some (header :: d1), d1.length) ∧
    append_raw_to_monthly (header :: d2) (some (header :: d1)) =
      (some ((header :: d1) ++ d2), d2.length) := by
  have e1 : d1.filter (fun r => !r.isEmpty) = d1 := by
    rw [List.filter_eq_self]
    intro a ha
    simpa using h1 a ha
  have e2 : d2.filter (fun r => !r.isEmpty) = d2 := by
    rw [List.filter_eq_self]
    intro a ha
    simpa using h2 a ha
  refine ⟨append_raw_snd, ?_, ?_⟩
  · simp [append_raw_to_monthly, e1]
  · simp [append_raw_to_monthly, e2]

/-- Witness for C3 at the spec's concrete sizes: header `[a,b,c]`, two
data rows, then three data rows, giving one header plus five data rows. -/
theorem C3_monthly_merge_witness :
    append_raw_to_monthly [["a", "b", "c"], ["1", "2", "3"], ["4", "5", "6"]] none =
      (some [["a", "b", "c"], ["1", "2", "3"], ["4", "5", "6"]], 2) ∧
    append_raw_to_monthly [["a", "b", "c"], ["7", "8", "9"], ["p", "q", "r"], ["x", "y", "z"]]
        (some [["a", "b", "c"], ["1", "2", "3"], ["4", "5", "6"]]) =
      (some [["a", "b", "c"], ["1", "2", "3"], ["4", "5", "6"],
             ["7", "8", "9"], ["p", "q", "r"], ["x", "y", "z"]], 3) := by
  have h := C3_monthly_merge ["a", "b", "c"] [["1", "2", "3"], ["4", "5", "6"]]
    [["7", "8", "9"], ["p", "q", "r"], ["x", "y", "z"]] (by decide) (by decide)
  exact ⟨h.2.1, h.2.2⟩

/-- C6: `file_in_scope` is monotone in the scope bound — an in-scope
name under bound `b` stays in scope under every bound `b'` at or below
`b` (equivalently, raising the bound never brings an out-of-scope name
into scope) — and a name with an undecidable timestamp is out of scope
under every bound. -/
theorem C6_file_in_scope_monotone (b b' : PyDate) (f : String) :
    (dateLe b' b = true → file_in_scope b f = true → file_in_scope b' f = true) ∧
    (extract_datetime_from_fname f = none → file_in_scope b f = false) := by
  constructor
  · intro hbb hsc
    unfold file_in_scope at hsc ⊢
    cases h : extract_datetime_from_fname f with
    | none =>
      rw [h] at hsc
      exact absurd hsc (by simp)
    | some d =>
      rw [h] at hsc
      exact dateLe_trans hbb hsc
  · intro h
    unfold file_in_scope
    rw [h]

/-- Witness for C6: a concrete name in scope under the bound 2025-11-01
stays in scope when the bound is lowered to 2025-01-01, and a name with
no parsable timestamp is out of scope under that bound. -/
theorem C6_file_in_scope_monotone_witness :
    file_in_scope ⟨2025, 1, 1⟩ "235_20251219T170000.CSV" = true ∧
    file_in_scope ⟨2025, 11, 1⟩ "nounderscore.CSV" = false := by
  constructor
  · exact (C6_file_in_scope_monotone ⟨2025, 11, 1⟩ ⟨2025, 1, 1⟩ "235_20251219T170000.CSV").1
      (by decide) (by decide)
  · exact (C6_file_in_scope_monotone ⟨2025, 11, 1⟩ ⟨2025, 1, 1⟩ "nounderscore.CSV").2 (by decide)

theorem digitChar_isDigit (n : Nat) : (digitChar n).isDigit = true := by
  have h : n % 10 < 10 := Nat.mod_lt _ (by norm_num)
  have hall : ∀ r, r < 10 → (Char.ofNat (48 + r)).isDigit = true := by decide
  exact hall _ h

theorem digitVal_digitChar (n : Nat) : digitVal (digitChar n) = n % 10 := by
  have h : n % 10 < 10 := Nat.mod_lt _ (by norm_num)
  have hall : ∀ r, r < 10 → digitVal (Char.ofNat (48 + r)) = r := by decide
  exact hall _ h

theorem digitChar_ne (n : Nat) : digitChar n ≠ '_' ∧ digitChar n ≠ '.' := by
  have h : n % 10 < 10 := Nat.mod_lt _ (by norm_num)
  have hall : ∀ r, r < 10 → Char.ofNat (48 + r) ≠ '_' ∧ Char.ofNat (48 + r) ≠ '.' := by decide
  exact hall _ h

theorem daysInMonth_le (y m : Nat) : daysInMonth y m ≤ 31 := by
  unfold daysInMonth
  split_ifs <;> omega

theorem validDateTime_bounds (d : PyDateTime) (hv : validDateTime d = true) :
    d.year ≤ 9999 ∧ d.month ≤ 99 ∧ d.day ≤ 99 ∧ d.hour ≤ 99 ∧ d.minute ≤ 99 ∧ d.second ≤ 99 := by
  unfold validDateTime at hv
  simp only [Bool.and_eq_true, decide_eq_true_eq] at hv
  have hdm := daysInMonth_le d.year d.month
  omega

theorem valDigits2 (n : Nat) (h : n ≤ 99) :
    valDigits [digitChar (n / 10), digitChar (n % 10)] = n := by
  simp [valDigits, digitVal_digitChar]
  omega

theorem valDigits4 (n : Nat) (h : n ≤ 9999) :
    valDigits [digitChar (n / 1000), digitChar (n / 100 % 10), digitChar (n / 10 % 10),
      digitChar (n % 10)] = n := by
  simp [valDigits, digitVal_digitChar]
  omega

theorem encodeT_eq_list (d : PyDateTime) :
    encodeT d = [digitChar (d.year / 1000), digitChar (d.year / 100 % 10),
      digitChar (d.year / 10 % 10), digitChar (d.year % 10),
      digitChar (d.month / 10), digitChar (d.month % 10),
      digitChar (d.day / 10), digitChar (d.day % 10), 'T',
      digitChar (d.hour / 10), digitChar (d.hour % 10),
      digitChar (d.minute / 10), digitChar (d.minute % 10),
      digitChar (d.second / 10), digitChar (d.second % 10)] := rfl

theorem encode14_eq_list (d : PyDateTime) :
    encode14 d = [digitChar (d.year / 1000), digitChar (d.year / 100 % 10),
      digitChar (d.year / 10 % 10), digitChar (d.year % 10),
      digitChar (d.month / 10), digitChar (d.month % 10),
      digitChar (d.day / 10), digitChar (d.day % 10),
      digitChar (d.hour / 10), digitChar (d.hour % 10),
      digitChar (d.minute / 10), digitChar (d.minute % 10),
      digitChar (d.second / 10), digitChar (d.second % 10)] := rfl

theorem mem_encodeT (c : Char) (d : PyDateTime) (h : c ∈ encodeT d) :
    c.isDigit = true ∨ c = 'T' := by
  rw [encodeT_eq_list] at h
  simp only [List.mem_cons, List.not_mem_nil, or_false] at h
  rcases h with rfl | rfl | rfl | rfl | rfl | rfl | rfl | rfl | rfl | rfl | rfl | rfl | rfl | rfl | rfl <;>
    first
    | exact Or.inl (digitChar_isDigit _)
    | exact Or.inr rfl

theorem mem_encode14 (c : Char) (d : PyDateTime) (h : c ∈ encode14 d) : c.isDigit = true := by
  rw [encode14_eq_list] at h
  simp only [List.mem_cons, List.not_mem_nil, or_false] at h
  rcases h with rfl | rfl | rfl | rfl | rfl | rfl | rfl | rfl | rfl | rfl | rfl | rfl | rfl | rfl <;>
    exact digitChar_isDigit _

theorem encodeT_no_under (d : PyDateTime) : '_' ∉ encodeT d := by
  intro h
  rcases mem_encodeT '_' d h with hd | ht
  · exact absurd hd (by decide)
  · exact absurd ht (by decide)

theorem encode14_no_under (d : PyDateTime) : '_' ∉ encode14 d := by
  intro h
  exact absurd (mem_encode14 '_' d h) (by decide)

theorem splitLastDot_none (l : List Char) (h : '.' ∉ l) : splitLastDot l = none := by
  induction l with
  | nil => rfl
  | cons c t ih =>
    have hc : c ≠ '.' := by
      rintro rfl
      exact h (by simp)
    have ht : '.' ∉ t := fun m => h (by simp [m])
    simp [splitLastDot, ih ht, hc]

theorem splitLastDot_append (xs e : List Char) (he : '.' ∉ e) :
    splitLastDot (xs ++ '.' :: e) = some (xs, e) := by
  induction xs with
  | nil => simp [splitLastDot, splitLastDot_none e he]
  | cons c t ih => simp [splitLastDot, ih]

theorem splitextBase_append (xs e : List Char) (he : '.' ∉ e) (c : Char) (hc : c ∈ xs)
    (hcd : c ≠ '.') : splitextBase (xs ++ '.' :: e) = xs := by
  have hany : (xs.any fun c => decide (c ≠ '.')) = true :=
    List.any_eq_true.mpr ⟨c, hc, by simp [hcd]⟩
  unfold splitextBase
  rw [splitLastDot_append xs e he]
  simp only [List.any_eq_true, decide_eq_true_eq]
  rw [if_pos]
  exact ⟨c, hc, hcd⟩

theorem splitUnders_no_under (l : List Char) (h : '_' ∉ l) : splitUnders l = [l] := by
  induction l with
  | nil => rfl
  | cons c t ih =>
    have hc : c ≠ '_' := by
      rintro rfl
      exact h (by simp)
    have ht : '_' ∉ t := fun m => h (by simp [m])
    simp [splitUnders, ih ht, hc]

theorem splitUnders_split (p ts : List Char) (hp : '_' ∉ p) (hts : '_' ∉ ts) :
    splitUnders (p ++ '_' :: ts) = [p, ts] := by
  induction p with
  | nil => simp [splitUnders, splitUnders_no_under ts hts]
  | cons c t ih =>
    have hc : c ≠ '_' := by
      rintro rfl
      exact hp (by simp)
    have ht : '_' ∉ t := fun m => hp (by simp [m])
    simp [splitUnders, ih ht, hc]

theorem tryTLayout_encodeT (d : PyDateTime) (hv : validDateTime d = true) :
    tryTLayout (encodeT d) = some d := by
  obtain ⟨hy, hmo, hdy, hhh, hmi, hss⟩ := validDateTime_bounds d hv
  obtain ⟨y, mo, dy, hh, mi, ss⟩ := d
  simp only at hy hmo hdy hhh hmi hss
  rw [tryTLayout, encodeT_eq_list]
  simp only
  rw [if_pos (by simp)]
  simp only [List.take_succ_cons, List.take_nil]
  rw [strptimeT15]
  rw [if_pos (by simp [digitChar_isDigit])]
  rw [valDigits4 y hy, valDigits2 mo hmo, valDigits2 dy hdy, valDigits2 hh hhh,
    valDigits2 mi hmi, valDigits2 ss hss]
  simp [mkValid, hv]

theorem tryTLayout_encode14 (d : PyDateTime) : tryTLayout (encode14 d) = none := by
  rw [tryTLayout, encode14_eq_list]
  rw [if_neg]
  simp

theorem tryDigitLayout_encode14 (d : PyDateTime) (hv : validDateTime d = true) :
    tryDigitLayout (encode14 d) = some d := by
  obtain ⟨hy, hmo, hdy, hhh, hmi, hss⟩ := validDateTime_bounds d hv
  obtain ⟨y, mo, dy, hh, mi, ss⟩ := d
  simp only at hy hmo hdy hhh hmi hss
  rw [tryDigitLayout, encode14_eq_list]
  simp only [List.take_succ_cons, List.take_nil]
  rw [if_pos (by simp [digitChar_isDigit])]
  rw [strptime14]
  rw [valDigits4 y hy, valDigits2 mo hmo, valDigits2 dy hdy, valDigits2 hh hhh,
    valDigits2 mi hmi, valDigits2 ss hss]
  simp [mkValid, hv]

theorem extractDT_encodeT (p e : List Char) (d : PyDateTime)
    (hp : '_' ∉ p) (he : '.' ∉ e) (hv : validDateTime d = true) :
    extractDT (p ++ '_' :: (encodeT d ++ '.' :: e)) = some d := by
  have hassoc : p ++ '_' :: (encodeT d ++ '.' :: e) = (p ++ '_' :: encodeT d) ++ '.' :: e := by
    simp
  have hbase : splitextBase (p ++ '_' :: (encodeT d ++ '.' :: e)) = p ++ '_' :: encodeT d := by
    rw [hassoc]
    exact splitextBase_append _ e he '_' (by simp) (by decide)
  unfold extractDT
  rw [hbase, splitUnders_split p (encodeT d) hp (encodeT_no_under d)]
  simp only
  rw [tryTLayout_encodeT d hv]

theorem extractDT_encode14 (p e : List Char) (d : PyDateTime)
    (hp : '_' ∉ p) (he : '.' ∉ e) (hv : validDateTime d = true) :
    extractDT (p ++ '_' :: (encode14 d ++ '.' :: e)) = some d := by
  have hassoc : p ++ '_' :: (encode14 d ++ '.' :: e) = (p ++ '_' :: encode14 d) ++ '.' :: e := by
    simp
  have hbase : splitextBase (p ++ '_' :: (encode14 d ++ '.' :: e)) = p ++ '_' :: encode14 d := by
    rw [hassoc]
    exact splitextBase_append _ e he '_' (by simp) (by decide)
  unfold extractDT
  rw [hbase, splitUnders_split p (encode14 d) hp (encode14_no_under d)]
  simp only
  rw [tryTLayout_encode14 d, tryDigitLayout_encode14 d hv]

theorem mkValid_valid {d d' : PyDateTime} (h : mkValid d = some d') :
    validDateTime d' = true := by
  unfold mkValid at h
  split_ifs at h with hc
  cases h
  exact hc

theorem strptimeT15_valid {s : List Char} {d : PyDateTime} (h : strptimeT15 s = some d) :
    validDateTime d = true := by
  unfold strptimeT15 at h
  split at h
  · split_ifs at h with hc
    exact mkValid_valid h
  · cases h

theorem strptimeShort_valid {s : List Char} {d : PyDateTime} (h : strptimeShort s = some d) :
    validDateTime d = true := by
  unfold strptimeShort at h
  split_ifs at h with hc
  split at h
  · exact mkValid_valid h
  · cases h

theorem strptime14_valid {s : List Char} {d : PyDateTime} (h : strptime14 s = some d) :
    validDateTime d = true := by
  unfold strptime14 at h
  split at h
  · exact mkValid_valid h
  · exact strptimeShort_valid h

theorem tryTLayout_valid {s : List Char} {d : PyDateTime} (h : tryTLayout s = some d) :
    validDateTime d = true := by
  unfold tryTLayout at h
  split_ifs at h with hc
  exact strptimeT15_valid h

theorem tryDigitLayout_valid {s : List Char} {d : PyDateTime} (h : tryDigitLayout s = some d) :
    validDateTime d = true := by
  simp only [tryDigitLayout] at h
  split_ifs at h with hc
  exact strptime14_valid h

theorem extractDT_valid {s : List Char} {d : PyDateTime} (h : extractDT s = some d) :
    validDateTime d = true := by
  unfold extractDT at h
  split at h
  · split at h
    · cases h
      next heq => exact tryTLayout_valid heq
    · exact tryDigitLayout_valid h
  · cases h

theorem extractDT_few_segments (s : List Char)
    (h : (splitUnders (splitextBase s)).length < 2) : extractDT s = none := by
  unfold extractDT
  split
  · next heq =>
    rw [heq] at h
    simp only [List.length_cons] at h
    exact absurd h (by omega)
  · rfl

/-- C4: for every object name `PREFIX_YYYYMMDDThhmmss.ext` or
`PREFIX_YYYYMMDDhhmmss.ext` (underscore-free `PREFIX`, dot-free `ext`,
embedded digits spelling a valid timestamp), `extract_datetime_from_fname`
returns exactly the spelled date/time; every name whose extension-stripped
base has fewer than two underscore-delimited segments yields `none`; and
every returned timestamp passed the range validation (so a tail matching
neither recognized layout can only yield `none` — and the Lean function
is total, modeling that the Python function never raises). -/
theorem C4_extract_datetime_from_fname_correct :
    (∀ (p e : List Char) (d : PyDateTime), '_' ∉ p → '.' ∉ e → validDateTime d = true →
      extract_datetime_from_fname ⟨p ++ '_' :: (encodeT d ++ '.' :: e)⟩ = some d) ∧
    (∀ (p e : List Char) (d : PyDateTime), '_' ∉ p → '.' ∉ e → validDateTime d = true →
      extract_datetime_from_fname ⟨p ++ '_' :: (encode14 d ++ '.' :: e)⟩ = some d) ∧
    (∀ s : String, (splitUnders (splitextBase s.data)).length < 2 →
      extract_datetime_from_fname s = none) ∧
    (∀ (s : String) (d : PyDateTime), extract_datetime_from_fname s = some d →
      validDateTime d = true) :=
  ⟨fun p e d hp he hv => extractDT_encodeT p e d hp he hv,
   fun p e d hp he hv => extractDT_encode14 p e d hp he hv,
   fun s h => extractDT_few_segments s.data h,
   fun _ _ h => extractDT_valid h⟩

/-- Witness for C4: the docstring examples — a `T`-layout name parses to
its spelled timestamp, a 14-digit-layout name likewise, and a name with no
underscore-delimited tail yields `none`. -/
theorem C4_extract_datetime_from_fname_correct_witness :
    extract_datetime_from_fname ⟨"235".data ++ '_' ::
        (encodeT ⟨2025, 12, 19, 17, 0, 0⟩ ++ '.' :: "CSV".data)⟩ =
      some ⟨2025, 12, 19, 17, 0, 0⟩ ∧
    extract_datetime_from_fname ⟨"D000".data ++ '_' ::
        (encode14 ⟨2025, 6, 16, 11, 50, 8⟩ ++ '.' :: "CSV".data)⟩ =
      some ⟨2025, 6, 16, 11, 50, 8⟩ ∧
    extract_datetime_from_fname "nounderscore.CSV" = none :=
  ⟨C4_extract_datetime_from_fname_correct.1 "235".data "CSV".data ⟨2025, 12, 19, 17, 0, 0⟩
      (by decide) (by decide) (by decide),
   C4_extract_datetime_from_fname_correct.2.1 "D000".data "CSV".data ⟨2025, 6, 16, 11, 50, 8⟩
      (by decide) (by decide) (by decide),
   C4_extract_datetime_from_fname_correct.2.2.1 "nounderscore.CSV" (by decide)⟩

theorem processAll_nil (env : Env) (st : LoopState) : processAll env st [] = st := rfl

theorem processAll_cons (env : Env) (st : LoopState) (f : String) (t : List String) :
    processAll env st (f :: t) = processAll env (processOne env st f) t := rfl

theorem processOne_fail (env : Env) (st : LoopState) (f : String) (hf : env.fetch f = none) :
    processOne env st f = { st with skipped := st.skipped + 1 } := by
  unfold processOne
  rw [hf]

theorem processOne_ok (env : Env) (st : LoopState) (f : String) (rows : Rows)
    (hf : env.fetch f = some rows) :
    processOne env st f =
      { st with
        dataMap := fun k => if k = year_month_for env.nowYm f then
            (append_raw_to_monthly rows (st.dataMap (year_month_for env.nowYm f))).1
          else st.dataMap k
        stateSet := f :: st.stateSet
        ok := st.ok + 1
        log := st.log ++ [(f, year_month_for env.nowYm f, (append_raw_to_monthly rows
          (st.dataMap (year_month_for env.nowYm f))).2)] } := by
  unfold processOne
  rw [hf]

theorem mem_stateSet_processAll (env : Env) {st : LoopState} {files : List String} {x : String}
    (h : x ∈ st.stateSet) : x ∈ (processAll env st files).stateSet := by
  induction files generalizing st with
  | nil => exact h
  | cons f t ih =>
    rw [processAll_cons]
    apply ih
    cases hf : env.fetch f with
    | some rows =>
      rw [processOne_ok env st f rows hf]
      exact List.mem_cons_of_mem f h
    | none =>
      rw [processOne_fail env st f hf]
      exact h

theorem stateSet_of_success (env : Env) {files : List String} {x : String} {rows : Rows}
    (hx : x ∈ files) (hf : env.fetch x = some rows) (st : LoopState) :
    x ∈ (processAll env st files).stateSet := by
  induction files generalizing st with
  | nil => cases hx
  | cons f t ih =>
    rw [processAll_cons]
    rcases List.mem_cons.mp hx with rfl | hxt
    · apply mem_stateSet_processAll
      rw [processOne_ok env st x rows hf]
      exact List.mem_cons_self x _
    · exact ih hxt _

theorem processAll_all_fail (env : Env) {files : List String}
    (h : ∀ f ∈ files, env.fetch f = none) (st : LoopState) :
    processAll env st files = { st with skipped := st.skipped + files.length } := by
  induction files generalizing st with
  | nil => simp [processAll_nil]
  | cons f t ih =>
    rw [processAll_cons, processOne_fail env st f (h f (by simp))]
    rw [ih (fun g hg => h g (by simp [hg]))]
    simp only [List.length_cons]
    have harith : st.skipped + 1 + t.length = st.skipped + (t.length + 1) := by omega
    rw [harith]

theorem mem_log_processAll (env : Env) {st : LoopState} {files : List String}
    {entry : String × Ym × Nat} (h : entry ∈ st.log) :
    entry ∈ (processAll env st files).log := by
  induction files generalizing st with
  | nil => exact h
  | cons f t ih =>
    rw [processAll_cons]
    apply ih
    cases hf : env.fetch f with
    | some rows =>
      rw [processOne_ok env st f rows hf]
      exact List.mem_append_left _ h
    | none =>
      rw [processOne_fail env st f hf]
      exact h

theorem log_of_success (env : Env) {files : List String} {x : String} {rows : Rows}
    (hx : x ∈ files) (hf : env.fetch x = some rows) (st : LoopState) :
    (x, year_month_for env.nowYm x, addedCount rows) ∈ (processAll env st files).log := by
  induction files generalizing st with
  | nil => cases hx
  | cons f t ih =>
    rw [processAll_cons]
    rcases List.mem_cons.mp hx with rfl | hxt
    · apply mem_log_processAll
      rw [processOne_ok env st x rows hf]
      apply List.mem_append_right
      rw [append_raw_snd]
      exact List.mem_singleton.mpr rfl
    · exact ih hxt _

theorem dataMap_frame (env : Env) {files : List String} {ym : Ym}
    (h : ∀ f ∈ files, year_month_for env.nowYm f ≠ ym) (st : LoopState) :
    (processAll env st files).dataMap ym = st.dataMap ym := by
  induction files generalizing st with
  | nil => rfl
  | cons f t ih =>
    rw [processAll_cons, ih (fun g hg => h g (by simp [hg]))]
    cases hf : env.fetch f with
    | some rows =>
      rw [processOne_ok env st f rows hf]
      simp only
      rw [if_neg]
      intro hcontra
      exact h f (by simp) hcontra.symm
    | none => rw [processOne_fail env st f hf]

theorem main_empty_scope {env : Env} {fs : FS} (h : (scopeOf env).isEmpty = true) :
    main env fs = ⟨fs, 0, 0, []⟩ := by
  unfold main
  rw [if_pos h]

theorem main_no_new {env : Env} {fs : FS} (h1 : (scopeOf env).isEmpty = false)
    (h2 : (newFilesOf env fs).isEmpty = true) :
    main env fs =
      ⟨⟨fs.ledger,
        clear_target_month_files_if_rebuild env.rebuild env.nowYm (scopeOf env) fs.data⟩,
       0, 0, []⟩ := by
  unfold newFilesOf at h2
  unfold main
  rw [if_neg (by rw [h1]; simp), if_pos h2]

theorem main_loop {env : Env} {fs : FS} (h1 : (scopeOf env).isEmpty = false)
    (h2 : (newFilesOf env fs).isEmpty = false) :
    main env fs =
      ⟨⟨save_state (processAll env
          ⟨clear_target_month_files_if_rebuild env.rebuild env.nowYm (scopeOf env) fs.data,
           load_state fs.ledger, 0, 0, []⟩ (newFilesOf env fs)).stateSet,
        (processAll env
          ⟨clear_target_month_files_if_rebuild env.rebuild env.nowYm (scopeOf env) fs.data,
           load_state fs.ledger, 0, 0, []⟩ (newFilesOf env fs)).dataMap⟩,
       (processAll env
          ⟨clear_target_month_files_if_rebuild env.rebuild env.nowYm (scopeOf env) fs.data,
           load_state fs.ledger, 0, 0, []⟩ (newFilesOf env fs)).ok,
       (processAll env
          ⟨clear_target_month_files_if_rebuild env.rebuild env.nowYm (scopeOf env) fs.data,
           load_state fs.ledger, 0, 0, []⟩ (newFilesOf env fs)).skipped,
       (processAll env
          ⟨clear_target_month_files_if_rebuild env.rebuild env.nowYm (scopeOf env) fs.data,
           load_state fs.ledger, 0, 0, []⟩ (newFilesOf env fs)).log⟩ := by
  unfold newFilesOf at h2 ⊢
  unfold main
  rw [if_neg (by rw [h1]; simp), if_neg (by rw [h2]; simp)]

theorem mem_newFilesOf {env : Env} {fs : FS} {x : String} :
    x ∈ newFilesOf env fs ↔ x ∈ scopeOf env ∧ x ∉ load_state fs.ledger := by
  unfold newFilesOf
  simp [List.mem_filter]

theorem mainInterrupted_loop {env : Env} {fs : FS} {k : Nat}
    (h1 : (scopeOf env).isEmpty = false) (h2 : (newFilesOf env fs).isEmpty = false) :
    mainInterrupted env fs k =
      ⟨⟨fs.ledger,
        (processAll env
          ⟨clear_target_month_files_if_rebuild env.rebuild env.nowYm (scopeOf env) fs.data,
           load_state fs.ledger, 0, 0, []⟩ ((newFilesOf env fs).take k)).dataMap⟩,
       (processAll env
          ⟨clear_target_month_files_if_rebuild env.rebuild env.nowYm (scopeOf env) fs.data,
           load_state fs.ledger, 0, 0, []⟩ ((newFilesOf env fs).take k)).ok,
       (processAll env
          ⟨clear_target_month_files_if_rebuild env.rebuild env.nowYm (scopeOf env) fs.data,
           load_state fs.ledger, 0, 0, []⟩ ((newFilesOf env fs).take k)).skipped,
       (processAll env
          ⟨clear_target_month_files_if_rebuild env.rebuild env.nowYm (scopeOf env) fs.data,
           load_state fs.ledger, 0, 0, []⟩ ((newFilesOf env fs).take k)).log⟩ := by
  unfold newFilesOf at h2 ⊢
  unfold mainInterrupted
  rw [if_neg (by rw [h1]; simp), if_neg (by rw [h2]; simp)]

/-- C1: idempotence of a full run — after a completed run of `main`,
running it again against the same environment (same remote listing and
fetch outcomes) performs no successful merge (its append log is empty
and its merged count is zero, so zero data rows are appended to every
monthly file) and leaves the persisted ledger file's content unchanged. -/
theorem C1_second_run_idempotent (env : Env) (fs : FS) :
    (main env (main env fs).fs).log = [] ∧
    (main env (main env fs).fs).ok = 0 ∧
    (main env (main env fs).fs).fs.ledger = (main env fs).fs.ledger := by
  by_cases hsc : (scopeOf env).isEmpty = true
  · rw [main_empty_scope hsc, main_empty_scope hsc]
    exact ⟨rfl, rfl, rfl⟩
  · have hsc' : (scopeOf env).isEmpty = false := by
      cases h : (scopeOf env).isEmpty
      · rfl
      · exact absurd h hsc
    by_cases hnf : (newFilesOf env fs).isEmpty = true
    · rw [main_no_new hsc' hnf]
      have hnf2 : (newFilesOf env
          (⟨⟨fs.ledger, clear_target_month_files_if_rebuild env.rebuild env.nowYm
            (scopeOf env) fs.data⟩, 0, 0, []⟩ : RunResult).fs).isEmpty = true := hnf
      rw [main_no_new hsc' hnf2]
      exact ⟨rfl, rfl, rfl⟩
    · have hnf' : (newFilesOf env fs).isEmpty = false := by
        cases h : (newFilesOf env fs).isEmpty
        · rfl
        · exact absurd h hnf
      rw [main_loop hsc' hnf']
      set st1 := processAll env
        ⟨clear_target_month_files_if_rebuild env.rebuild env.nowYm (scopeOf env) fs.data,
         load_state fs.ledger, 0, 0, []⟩ (newFilesOf env fs) with hst1
      set fs1 : FS := ⟨save_state st1.stateSet, st1.dataMap⟩ with hfs1
      have hload1 : load_state fs1.ledger = sortDedup st1.stateSet := rfl
      have hallfail : ∀ x ∈ newFilesOf env fs1, env.fetch x = none := by
        intro x hx
        rcases mem_newFilesOf.mp hx with ⟨hxs, hxnl⟩
        rw [hload1] at hxnl
        have hxnotset : x ∉ st1.stateSet := fun hmem =>
          hxnl ((mem_sortDedup x _).mpr hmem)
        have hxnotled : x ∉ load_state fs.ledger := fun hmem =>
          hxnotset (mem_stateSet_processAll env hmem)
        have hxnew : x ∈ newFilesOf env fs := mem_newFilesOf.mpr ⟨hxs, hxnotled⟩
        cases hfx : env.fetch x with
        | none => rfl
        | some rows => exact absurd (stateSet_of_success env hxnew hfx _) hxnotset
      by_cases hnf2 : (newFilesOf env fs1).isEmpty = true
      · rw [main_no_new hsc' hnf2]
        exact ⟨rfl, rfl, rfl⟩
      · have hnf2' : (newFilesOf env fs1).isEmpty = false := by
          cases h : (newFilesOf env fs1).isEmpty
          · rfl
          · exact absurd h hnf2
        rw [main_loop hsc' hnf2']
        rw [processAll_all_fail env hallfail]
        refine ⟨rfl, rfl, ?_⟩
        show save_state (load_state fs1.ledger) = fs1.ledger
        rw [hload1]
        show LedgerFile.jsonList (sortDedup (sortDedup st1.stateSet)) = fs1.ledger
        rw [sortDedup_idem]
        rfl

/-- C2: per-file failure isolation — when the per-file loop processes
exactly `[f1, f2]` (distinct partitions, rebuild off), `f1`'s fetch
succeeding with nonempty rows and `f2`'s fetch-or-merge raising, the run
still completes with `ok = 1` and `skipped = 1`, the persisted ledger
contains `f1` but not `f2`, `f1`'s partition file ends with `f1`'s data
rows, and `f2`'s partition file is unchanged. -/
theorem C2_per_file_failure_isolation (env : Env) (fs : FS) (f1 f2 : String) (rows1 : Rows)
    (hnf : newFilesOf env fs = [f1, f2])
    (hf1 : env.fetch f1 = some rows1) (hf2 : env.fetch f2 = none)
    (hym : year_month_for env.nowYm f1 ≠ year_month_for env.nowYm f2)
    (hreb : env.rebuild = false) (hrows : rows1 ≠ []) :
    (main env fs).ok = 1 ∧ (main env fs).skipped = 1 ∧
    f1 ∈ load_state (main env fs).fs.ledger ∧
    f2 ∉ load_state (main env fs).fs.ledger ∧
    (∃ pre, (main env fs).fs.data (year_month_for env.nowYm f1) =
      some (pre ++ dataRowsOf rows1)) ∧
    (main env fs).fs.data (year_month_for env.nowYm f2) =
      fs.data (year_month_for env.nowYm f2) := by
  have hsc' : (scopeOf env).isEmpty = false := by
    cases h : scopeOf env with
    | nil =>
      have hnf' := hnf
      unfold newFilesOf at hnf'
      rw [h] at hnf'
      simp at hnf'
    | cons a t => rfl
  have hnf' : (newFilesOf env fs).isEmpty = false := by rw [hnf]; rfl
  have hclear : clear_target_month_files_if_rebuild env.rebuild env.nowYm (scopeOf env) fs.data
      = fs.data := by
    unfold clear_target_month_files_if_rebuild
    rw [hreb]
    rfl
  rw [main_loop hsc' hnf', hnf, hclear]
  rw [processAll_cons, processAll_cons, processAll_nil]
  rw [processOne_ok env _ f1 rows1 hf1]
  rw [processOne_fail env _ f2 hf2]
  have hf2nf : f2 ∈ newFilesOf env fs := by
    rw [hnf]
    simp
  have hf2led : f2 ∉ load_state fs.ledger := (mem_newFilesOf.mp hf2nf).2
  have hne : f2 ≠ f1 := by
    rintro rfl
    exact hym rfl
  refine ⟨rfl, rfl, ?_, ?_, ?_, ?_⟩
  · show f1 ∈ load_state (save_state (f1 :: load_state fs.ledger))
    show f1 ∈ sortDedup (f1 :: load_state fs.ledger)
    exact (mem_sortDedup _ _).mpr (List.mem_cons_self _ _)
  · show f2 ∉ load_state (save_state (f1 :: load_state fs.ledger))
    show f2 ∉ sortDedup (f1 :: load_state fs.ledger)
    intro hmem
    rcases List.mem_cons.mp ((mem_sortDedup _ _).mp hmem) with h | h
    · exact hne h
    · exact hf2led h
  · show ∃ pre, (if year_month_for env.nowYm f1 = year_month_for env.nowYm f1 then
        (append_raw_to_monthly rows1 (fs.data (year_month_for env.nowYm f1))).1
      else fs.data (year_month_for env.nowYm f1)) = some (pre ++ dataRowsOf rows1)
    rw [if_pos rfl]
    cases rows1 with
    | nil => exact absurd rfl hrows
    | cons hd rest =>
      cases hdest : fs.data (year_month_for env.nowYm f1) with
      | none => exact ⟨[hd], by simp [append_raw_to_monthly, dataRowsOf]⟩
      | some old => exact ⟨old, by simp [append_raw_to_monthly, dataRowsOf]⟩
  · show (if year_month_for env.nowYm f2 = year_month_for env.nowYm f1 then
        (append_raw_to_monthly rows1 (fs.data (year_month_for env.nowYm f1))).1
      else fs.data (year_month_for env.nowYm f2)) = fs.data (year_month_for env.nowYm f2)
    rw [if_neg (fun h => hym h.symm)]

/-- Witness for C2 on a concrete environment: two in-scope files in
different months, the first fetchable and the second failing, starting
from an empty filesystem. -/
theorem C2_per_file_failure_isolation_witness :
    (main wEnvA fsEmpty).ok = 1 ∧ (main wEnvA fsEmpty).skipped = 1 ∧
    "A_20251105T080000.CSV" ∈ load_state (main wEnvA fsEmpty).fs.ledger ∧
    "B_20251219T170000.CSV" ∉ load_state (main wEnvA fsEmpty).fs.ledger ∧
    (∃ pre, (main wEnvA fsEmpty).fs.data
        (year_month_for wEnvA.nowYm "A_20251105T080000.CSV") =
      some (pre ++ dataRowsOf wRows)) ∧
    (main wEnvA fsEmpty).fs.data (year_month_for wEnvA.nowYm "B_20251219T170000.CSV") =
      fsEmpty.data (year_month_for wEnvA.nowYm "B_20251219T170000.CSV") :=
  C2_per_file_failure_isolation wEnvA fsEmpty "A_20251105T080000.CSV" "B_20251219T170000.CSV"
    wRows (by decide) (by decide) (by decide) (by decide) (by decide) (by decide)

/-- C7: rebuild frame — with rebuild mode enabled, the destination file
of every partition key derived from an in-scope name is deleted by the
pre-merge clearing step, while every monthly file whose key is not
derived from the scope set keeps its content through the clearing step
and through the whole run. -/
theorem C7_rebuild_clears_only_scope_months (env : Env) (fs : FS) (ym : Ym)
    (hreb : env.rebuild = true) :
    (ym ∈ (scopeOf env).map (year_month_for env.nowYm) →
      clear_target_month_files_if_rebuild env.rebuild env.nowYm (scopeOf env) fs.data ym
        = none) ∧
    (ym ∉ (scopeOf env).map (year_month_for env.nowYm) →
      clear_target_month_files_if_rebuild env.rebuild env.nowYm (scopeOf env) fs.data ym
          = fs.data ym ∧
      (main env fs).fs.data ym = fs.data ym) := by
  constructor
  · intro hm
    unfold clear_target_month_files_if_rebuild
    rw [hreb]
    simp [hm]
  · intro hm
    have hcl : clear_target_month_files_if_rebuild env.rebuild env.nowYm (scopeOf env) fs.data ym
        = fs.data ym := by
      unfold clear_target_month_files_if_rebuild
      rw [hreb]
      simp [hm]
    refine ⟨hcl, ?_⟩
    by_cases hsc : (scopeOf env).isEmpty = true
    · rw [main_empty_scope hsc]
    · have hsc' : (scopeOf env).isEmpty = false := by
        cases h : (scopeOf env).isEmpty
        · rfl
        · exact absurd h hsc
      by_cases hnf : (newFilesOf env fs).isEmpty = true
      · rw [main_no_new hsc' hnf]
        exact hcl
      · have hnf' : (newFilesOf env fs).isEmpty = false := by
          cases h : (newFilesOf env fs).isEmpty
          · rfl
          · exact absurd h hnf
        rw [main_loop hsc' hnf']
        have hframe : ∀ f ∈ newFilesOf env fs, year_month_for env.nowYm f ≠ ym := by
          intro f hf hcontra
          exact hm (List.mem_map.mpr ⟨f, (mem_newFilesOf.mp hf).1, hcontra⟩)
        show (processAll env _ (newFilesOf env fs)).dataMap ym = fs.data ym
        rw [dataMap_frame env hframe]
        exact hcl

/-- Witness for C7: with rebuild on, the November 2025 partition (derived
from an in-scope file) is deleted by the clearing step, while the May
2024 partition (no in-scope file derives it) keeps its content through
the clearing step and the whole run. -/
theorem C7_rebuild_clears_only_scope_months_witness :
    clear_target_month_files_if_rebuild wEnvR.rebuild wEnvR.nowYm (scopeOf wEnvR)
      fsOldMonth.data (2025, 11) = none ∧
    (clear_target_month_files_if_rebuild wEnvR.rebuild wEnvR.nowYm (scopeOf wEnvR)
      fsOldMonth.data (2024, 5) = fsOldMonth.data (2024, 5) ∧
     (main wEnvR fsOldMonth).fs.data (2024, 5) = fsOldMonth.data (2024, 5)) :=
  ⟨(C7_rebuild_clears_only_scope_months wEnvR fsOldMonth (2025, 11) rfl).1 (by decide),
   (C7_rebuild_clears_only_scope_months wEnvR fsOldMonth (2024, 5) rfl).2 (by decide)⟩

/-- C9: with rebuild mode enabled, a name that is both in scope and
already in the loaded ledger is excluded from `new_files`, yet the
clearing step deletes its monthly partition; the run's final data
directory is exactly the result of re-merging only the `new_files` (which
do not include the name) on top of the cleared directory, so the rebuilt
monthly file is reconstructed without that file's data rows. -/
theorem C9_rebuild_loses_ledgered_rows (env : Env) (fs : FS) (f : String)
    (hreb : env.rebuild = true) (hsc : f ∈ scopeOf env)
    (hled : f ∈ load_state fs.ledger) :
    f ∉ newFilesOf env fs ∧
    clear_target_month_files_if_rebuild env.rebuild env.nowYm (scopeOf env) fs.data
      (year_month_for env.nowYm f) = none ∧
    (main env fs).fs.data =
      (processAll env
        ⟨clear_target_month_files_if_rebuild env.rebuild env.nowYm (scopeOf env) fs.data,
         load_state fs.ledger, 0, 0, []⟩ (newFilesOf env fs)).dataMap := by
  refine ⟨?_, ?_, ?_⟩
  · intro hmem
    exact (mem_newFilesOf.mp hmem).2 hled
  · unfold clear_target_month_files_if_rebuild
    rw [hreb]
    simp only [if_true]
    rw [if_pos]
    exact List.mem_map_of_mem _ hsc
  · have hsc' : (scopeOf env).isEmpty = false := by
      cases h : scopeOf env with
      | nil =>
        rw [h] at hsc
        cases hsc
      | cons a t => rfl
    by_cases hnf : (newFilesOf env fs).isEmpty = true
    · rw [main_no_new hsc' hnf]
      have hempty : newFilesOf env fs = [] := by
        cases h : newFilesOf env fs with
        | nil => rfl
        | cons a t =>
          rw [h] at hnf
          cases hnf
      rw [hempty, processAll_nil]
    · have hnf' : (newFilesOf env fs).isEmpty = false := by
        cases h : (newFilesOf env fs).isEmpty
        · rfl
        · exact absurd h hnf
      rw [main_loop hsc' hnf']

/-- Witness for C9: rebuild on, the November file already ledgered — it
is not in `new_files`, and its partition is cleared before the loop. -/
theorem C9_rebuild_loses_ledgered_rows_witness :
    "A_20251105T080000.CSV" ∉ newFilesOf wEnvR fsLedgerA ∧
    clear_target_month_files_if_rebuild wEnvR.rebuild wEnvR.nowYm (scopeOf wEnvR)
      fsLedgerA.data (year_month_for wEnvR.nowYm "A_20251105T080000.CSV") = none ∧
    (main wEnvR fsLedgerA).fs.data =
      (processAll wEnvR
        ⟨clear_target_month_files_if_rebuild wEnvR.rebuild wEnvR.nowYm (scopeOf wEnvR)
          fsLedgerA.data, load_state fsLedgerA.ledger, 0, 0, []⟩
        (newFilesOf wEnvR fsLedgerA)).dataMap :=
  C9_rebuild_loses_ledgered_rows wEnvR fsLedgerA "A_20251105T080000.CSV" rfl
    (by decide) (by decide)

/-- C10: a KeyboardInterrupt during the per-file loop stops the run
without reaching `save_state`, so the persisted ledger file keeps its
pre-run content; consequently every file merged before the interrupt is
still absent from the ledger, reappears in the next run's `new_files`,
and has its data rows fetched and appended again by the next run. -/
theorem C10_interrupt_keeps_ledger (env : Env) (fs : FS) (k : Nat) (f : String) (rows : Rows)
    (hmem : f ∈ (newFilesOf env fs).take k) (hf : env.fetch f = some rows) :
    (mainInterrupted env fs k).fs.ledger = fs.ledger ∧
    f ∈ newFilesOf env (mainInterrupted env fs k).fs ∧
    (f, year_month_for env.nowYm f, addedCount rows) ∈
      (main env (mainInterrupted env fs k).fs).log := by
  have hfnew : f ∈ newFilesOf env fs := List.mem_of_mem_take hmem
  have hsc' : (scopeOf env).isEmpty = false := by
    cases h : scopeOf env with
    | nil =>
      have := (mem_newFilesOf.mp hfnew).1
      rw [h] at this
      cases this
    | cons a t => rfl
  have hnf' : (newFilesOf env fs).isEmpty = false := by
    cases h : newFilesOf env fs with
    | nil =>
      rw [h] at hfnew
      cases hfnew
    | cons a t => rfl
  have hledg : (mainInterrupted env fs k).fs.ledger = fs.ledger := by
    rw [mainInterrupted_loop hsc' hnf']
  have hsame : newFilesOf env (mainInterrupted env fs k).fs = newFilesOf env fs := by
    unfold newFilesOf
    rw [hledg]
  refine ⟨hledg, ?_, ?_⟩
  · rw [hsame]
    exact hfnew
  · have hnf2 : (newFilesOf env (mainInterrupted env fs k).fs).isEmpty = false := by
      rw [hsame]
      exact hnf'
    rw [main_loop hsc' hnf2]
    rw [hsame]
    exact log_of_success env hfnew hf _

/-- Witness for C10: interrupting after one file leaves the (absent)
ledger file as it was, and the next run fetches and merges that file
again. -/
theorem C10_interrupt_keeps_ledger_witness :
    (mainInterrupted wEnvA fsEmpty 1).fs.ledger = fsEmpty.ledger ∧
    "A_20251105T080000.CSV" ∈ newFilesOf wEnvA (mainInterrupted wEnvA fsEmpty 1).fs ∧
    ("A_20251105T080000.CSV", year_month_for wEnvA.nowYm "A_20251105T080000.CSV",
      addedCount wRows) ∈ (main wEnvA (mainInterrupted wEnvA fsEmpty 1).fs).log :=
  C10_interrupt_keeps_ledger wEnvA fsEmpty 1 "A_20251105T080000.CSV" wRows
    (by decide) (by decide)

end RtmkSync
